import Mathlib

set_option linter.unusedVariables false

/-!
Verification of the pyUSC3 serial protocol client (file src/pyUSC3.py).

The development shallowly embeds the protocol layer of the Usc3 class:
command framing (method _execute_command, lines 101-111), response
decoding against the comm_codes status table, device discovery
(_port_seek, connect), the output-pin mask of set_pulse, and the
disable-flag word of set_laser_disable_flag.  Byte strings are modelled
as lists of byte values, text strings as lists of characters; the
distinction matters because Python 3 never equates bytes with str.
-/

/-! ### Decimal rendering, modelling the Python builtin str on int -/

/-- Little-endian decimal digit characters of a natural number, with an
explicit fuel argument (the first component) serving as termination
measure; fuel at least n yields all digits of n.  Zero yields the empty
list; natStr adds the special case for 0. -/
def natToRevDigitsAux : Nat → Nat → List Char
  | _, 0 => []
  | 0, _ + 1 => []
  | fuel + 1, n + 1 => Nat.digitChar ((n + 1) % 10) :: natToRevDigitsAux fuel ((n + 1) / 10)

/-- Decimal digit characters of a natural number, most significant first,
no leading zeros. -/
def natStr (n : Nat) : List Char :=
  if n = 0 then ['0'] else (natToRevDigitsAux n n).reverse

/-- Decimal rendering of an integer: a leading minus sign for negative
values, then the digits.  This models the Python builtin str applied to
an int. -/
def intStr (i : Int) : List Char :=
  if i < 0 then '-' :: natStr i.natAbs else natStr i.toNat

/-! ### Decimal parsing (the parse-back direction used by the claims) -/

/-- Boolean test for an ASCII decimal digit character. -/
def digit? (c : Char) : Bool :=
  ('0' ≤ c) && (c ≤ '9')

/-- Numeric value of a digit character. -/
def digitVal (c : Char) : Nat :=
  c.toNat - 48

/-- Fold a digit-character list, most significant first, into a natural
number. -/
def parseNatCore (cs : List Char) : Nat :=
  cs.foldl (fun a c => 10 * a + digitVal c) 0

/-- Strict decimal parse of a natural number: the list must be nonempty
and consist solely of digit characters. -/
def parseNat? (cs : List Char) : Option Nat :=
  if cs ≠ [] ∧ cs.all digit? = true then some (parseNatCore cs) else none

/-- Strict decimal parse of an integer: an optional leading minus sign,
then a nonempty digit string. -/
def parseInt? (cs : List Char) : Option Int :=
  if cs.head? = some '-' then (parseNat? cs.tail).map (fun n => -(Int.ofNat n))
  else (parseNat? cs).map (fun n => Int.ofNat n)

/-! ### Round-trip lemmas for the decimal rendering -/

theorem digitVal_digitChar : ∀ d : Nat, d < 10 → digitVal (Nat.digitChar d) = d := by
  decide

theorem digit?_digitChar : ∀ d : Nat, d < 10 → digit? (Nat.digitChar d) = true := by
  decide

theorem natToRevDigitsAux_foldl :
    ∀ fuel n, n ≤ fuel →
      List.foldl (fun a c => 10 * a + digitVal c) 0 (natToRevDigitsAux fuel n).reverse = n := by
  intro fuel
  induction fuel with
  | zero =>
    intro n hn
    interval_cases n
    rfl
  | succ fuel ih =>
    intro n hn
    match n with
    | 0 => rfl
    | m + 1 =>
      have hdiv : (m + 1) / 10 ≤ fuel := by
        have := Nat.div_lt_self (Nat.succ_pos m) (by decide : 1 < 10)
        omega
      have hrec := ih ((m + 1) / 10) hdiv
      simp only [natToRevDigitsAux, List.reverse_cons, List.foldl_append, hrec, List.foldl_cons,
        List.foldl_nil]
      rw [digitVal_digitChar ((m + 1) % 10) (Nat.mod_lt _ (by decide))]
      omega

theorem natToRevDigitsAux_digits :
    ∀ fuel n c, c ∈ natToRevDigitsAux fuel n → digit? c = true := by
  intro fuel
  induction fuel with
  | zero =>
    intro n c hc
    match n with
    | 0 => simp [natToRevDigitsAux] at hc
    | m + 1 => simp [natToRevDigitsAux] at hc
  | succ fuel ih =>
    intro n c hc
    match n with
    | 0 => simp [natToRevDigitsAux] at hc
    | m + 1 =>
      simp only [natToRevDigitsAux, List.mem_cons] at hc
      rcases hc with rfl | hc
      · exact digit?_digitChar _ (Nat.mod_lt _ (by decide))
      · exact ih _ _ hc

theorem natToRevDigitsAux_ne_nil (n : Nat) (hn : n ≠ 0) :
    natToRevDigitsAux n n ≠ [] := by
  match n with
  | 0 => exact absurd rfl hn
  | m + 1 => simp [natToRevDigitsAux]

theorem natStr_digits {n : Nat} {c : Char} (hc : c ∈ natStr n) : digit? c = true := by
  unfold natStr at hc
  split at hc
  · simp at hc
    subst hc
    decide
  · rw [List.mem_reverse] at hc
    exact natToRevDigitsAux_digits _ _ _ hc

theorem natStr_ne_nil (n : Nat) : natStr n ≠ [] := by
  unfold natStr
  split
  · simp
  · simp only [ne_eq, List.reverse_eq_nil_iff]
    exact natToRevDigitsAux_ne_nil n (by assumption)

theorem parseNat?_natStr (n : Nat) : parseNat? (natStr n) = some n := by
  unfold parseNat?
  rw [if_pos]
  · unfold natStr
    split
    · subst n
      rfl
    · unfold parseNatCore
      rw [natToRevDigitsAux_foldl n n (Nat.le_refl n)]
  · constructor
    · exact natStr_ne_nil n
    · rw [List.all_eq_true]
      intro c hc
      exact natStr_digits hc

theorem digit?_ne_special {c : Char} (h : digit? c = true) :
    c ≠ '-' ∧ c ≠ ' ' ∧ c ≠ ',' ∧ c ≠ '[' ∧ c ≠ ']' := by
  refine ⟨?_, ?_, ?_, ?_, ?_⟩ <;> (rintro rfl; exact absurd h (by decide))

theorem natStr_head?_ne_minus (n : Nat) : (natStr n).head? ≠ some '-' := by
  match hs : natStr n with
  | [] => exact absurd hs (natStr_ne_nil n)
  | c :: rest =>
    have hc : c ∈ natStr n := by rw [hs]; exact List.mem_cons_self _ _
    have := (digit?_ne_special (natStr_digits hc)).1
    simp only [List.head?_cons, ne_eq, Option.some.injEq]
    exact this

theorem parseInt?_intStr (i : Int) : parseInt? (intStr i) = some i := by
  unfold intStr
  split
  · rename_i hneg
    unfold parseInt?
    have hcond : ('-' :: natStr i.natAbs).head? = some '-' := rfl
    rw [if_pos hcond]
    simp only [List.tail_cons, parseNat?_natStr, Option.map_some']
    have hval : -(Int.ofNat i.natAbs) = i := by rw [Int.ofNat_eq_coe]; omega
    rw [hval]
  · rename_i hpos
    unfold parseInt?
    rw [if_neg (natStr_head?_ne_minus i.toNat)]
    simp only [parseNat?_natStr, Option.map_some']
    have hval : Int.ofNat i.toNat = i := by rw [Int.ofNat_eq_coe]; omega
    rw [hval]

theorem mem_intStr {c : Char} {i : Int} (hc : c ∈ intStr i) :
    c = '-' ∨ digit? c = true := by
  unfold intStr at hc
  split at hc
  · rcases List.mem_cons.mp hc with rfl | hc
    · exact Or.inl rfl
    · exact Or.inr (natStr_digits hc)
  · exact Or.inr (natStr_digits hc)

/-! ### Joining and splitting character lists on a separator -/

/-- Join a list of character lists, inserting the separator between
consecutive parts (and nowhere else). -/
def joinSep (sep : List Char) : List (List Char) → List Char
  | [] => []
  | [p] => p
  | p :: q :: ps => p ++ sep ++ joinSep sep (q :: ps)

/-- Split a character list at every occurrence of the separator
character, keeping empty fields, as the Python str split method with an
explicit single-character separator does. -/
def splitOnChar (c : Char) : List Char → List (List Char)
  | [] => [[]]
  | x :: xs =>
    if x = c then [] :: splitOnChar c xs
    else
      match splitOnChar c xs with
      | [] => [[x]]
      | f :: rest => (x :: f) :: rest

theorem splitOnChar_cons_eq (c x : Char) (xs : List Char) :
    splitOnChar c (x :: xs) =
      if x = c then [] :: splitOnChar c xs
      else
        match splitOnChar c xs with
        | [] => [[x]]
        | f :: rest => (x :: f) :: rest := rfl

theorem splitOnChar_ne_nil (c : Char) (l : List Char) : splitOnChar c l ≠ [] := by
  induction l with
  | nil => simp [splitOnChar]
  | cons x xs ih =>
    unfold splitOnChar
    split
    · simp
    · match h : splitOnChar c xs with
      | [] => exact absurd h ih
      | f :: rest => simp

theorem splitOnChar_no_sep (c : Char) (p : List Char) (h : ∀ x ∈ p, x ≠ c) :
    splitOnChar c p = [p] := by
  induction p with
  | nil => rfl
  | cons x xs ih =>
    have hx : x ≠ c := h x (List.mem_cons_self _ _)
    have hrest : splitOnChar c xs = [xs] := ih (fun y hy => h y (List.mem_cons_of_mem _ hy))
    unfold splitOnChar
    rw [if_neg hx, hrest]

theorem splitOnChar_append_sep (c : Char) (p t : List Char) (hp : ∀ x ∈ p, x ≠ c) :
    splitOnChar c (p ++ c :: t) = p :: splitOnChar c t := by
  induction p with
  | nil =>
    simp only [List.nil_append]
    rw [splitOnChar_cons_eq, if_pos rfl]
  | cons x xs ih =>
    have hx : x ≠ c := hp x (List.mem_cons_self _ _)
    have hrest := ih (fun y hy => hp y (List.mem_cons_of_mem _ hy))
    simp only [List.cons_append]
    rw [splitOnChar_cons_eq, if_neg hx, hrest]

theorem splitOnChar_joinSep (c : Char) (parts : List (List Char)) (hne : parts ≠ [])
    (h : ∀ p ∈ parts, ∀ x ∈ p, x ≠ c) :
    splitOnChar c (joinSep [c] parts) = parts := by
  induction parts with
  | nil => exact absurd rfl hne
  | cons p ps ih =>
    match ps with
    | [] =>
      exact splitOnChar_no_sep c p (h p (List.mem_cons_self _ _))
    | q :: ps' =>
      have hstep : joinSep [c] (p :: q :: ps') = p ++ c :: joinSep [c] (q :: ps') := by
        simp [joinSep]
      rw [hstep, splitOnChar_append_sep c p _ (h p (List.mem_cons_self _ _)),
        ih (by simp) (fun r hr => h r (List.mem_cons_of_mem _ hr))]

theorem mem_joinSep {c : Char} {sep : List Char} {parts : List (List Char)}
    (hc : c ∈ joinSep sep parts) : c ∈ sep ∨ ∃ p ∈ parts, c ∈ p := by
  induction parts with
  | nil => simp [joinSep] at hc
  | cons p ps ih =>
    match ps with
    | [] =>
      exact Or.inr ⟨p, List.mem_cons_self _ _, hc⟩
    | q :: ps' =>
      simp only [joinSep, List.append_assoc, List.mem_append] at hc
      rcases hc with hc | hc | hc
      · exact Or.inr ⟨p, List.mem_cons_self _ _, hc⟩
      · exact Or.inl hc
      · rcases ih hc with hc | ⟨r, hr, hcr⟩
        · exact Or.inl hc
        · exact Or.inr ⟨r, List.mem_cons_of_mem _ hr, hcr⟩

/-! ### Python value model

Python 3 distinguishes bytes objects from str objects, and equality
between a bytes value and a str value is always False.  The Usc3 class
receives bytes from the serial port but keys its comm_codes table by
str, so the distinction is load-bearing and is modelled explicitly. -/

/-- A Python value as far as the protocol layer is concerned: either a
bytes object (a list of byte values) or a str object (a list of
characters).  Equality across the two constructors is False, as in
Python 3. -/
inductive PyV where
  | bytes (b : List Nat)
  | str (s : List Char)
  deriving DecidableEq, Repr

/-- Exceptions the reference implementation can raise on the paths the
claims exercise. -/
inductive PyError where
  | indexError
  | typeError
  | valueError
  deriving DecidableEq, Repr

/-- The optional val argument of the method Usc3._execute_command: a
single integer or a list of integers. -/
inductive Param where
  | int (i : Int)
  | list (l : List Int)
  deriving DecidableEq, Repr

/-- ASCII bytes of a character list, modelling the bytes constructor
applied to an ASCII str. -/
def asciiBytes (s : List Char) : List Nat :=
  s.map Char.toNat

/-- The Python builtin str applied to the parameter value: an int
renders as its decimal digits, a list renders as the element renderings
joined by comma-space and enclosed in square brackets. -/
def pyReprParam : Param → List Char
  | .int i => intStr i
  | .list l => '[' :: (joinSep [',', ' '] (l.map intStr) ++ [']'])

/-- The Python slice s[1:-1]: drop the first and the last character. -/
def slice1m1 (s : List Char) : List Char :=
  (s.drop 1).dropLast

/-! ### The Usc3 class, protocol layer (src/pyUSC3.py lines 48-227) -/

/-- Frame construction of Usc3._execute_command (lines 101-105):
to_write starts as the opcode bytes; when val is present the delimiter
b0x20 is appended, then the val rendered by str, sliced by [1:-1] and
with every comma removed; finally the terminator b0x0d 0x0a is
appended.  All characters involved are ASCII, so the frame is modelled
as a character list. -/
def execFrame (data : List Char) : Option Param → List Char
  | none => data ++ ['\r', '\n']
  | some v => data ++ [' '] ++ (slice1m1 (pyReprParam v)).filter (fun c => c != ',') ++ ['\r', '\n']

/-- The comm_codes table of the Usc3 class (lines 56-76), with its str
keys modelled as PyV.str values. -/
def comm_codes : List (PyV × List Char) := [
  (PyV.str "0".toList, "Success".toList),
  (PyV.str "1".toList, "Too many parameters".toList),
  (PyV.str "2".toList, "Too few parameters".toList),
  (PyV.str "3".toList, "Unknown command".toList),
  (PyV.str "4".toList, "Job not valid".toList),
  (PyV.str "5".toList, "Operation not allowed during marking".toList),
  (PyV.str "6".toList, "Entity not found".toList),
  (PyV.str "7".toList, "Not initialized".toList),
  (PyV.str "8".toList, "Parameter out of range".toList),
  (PyV.str "9".toList, "Internal error".toList),
  (PyV.str "10".toList, "Operation not allowed".toList),
  (PyV.str "11".toList, "The internal queue is full and cannot accept any more commands".toList),
  (PyV.str "12".toList, "Command not available, probably due to missing Flash license".toList),
  (PyV.str "13".toList, "Out of memory".toList),
  (PyV.str "14".toList, "Job already exists".toList),
  (PyV.str "15".toList, "File not found".toList),
  (PyV.str "16".toList, "Command removed".toList),
  (PyV.str "17".toList, "Wrong parameter type".toList),
  (PyV.str "18".toList, "SN increment must be 0".toList)]

/-- Response handling of Usc3._execute_command (lines 107-111): the
received bytes are tested for membership among the dict keys, and on a
hit the description is returned (a str), otherwise the raw bytes are
returned.  The membership probe is a bytes value while every key is a
str value. -/
def execute_decode (response : List Nat) : PyV :=
  if comm_codes.any (fun kv => kv.1 == PyV.bytes response) then
    PyV.str (((comm_codes.find? (fun kv => kv.1 == PyV.bytes response)).map Prod.snd).getD [])
  else PyV.bytes response

/-- The Python split method with the one-character str separator b0x20,
applied to whatever _execute_command returned.  On a str receiver it
splits; on a bytes receiver CPython raises TypeError because the
separator argument must then be a bytes-like object, and the source
passes the str literal of a single space (line 136). -/
def pySplitSpace : PyV → Except PyError (List PyV)
  | .str s => Except.ok ((splitOnChar ' ' s).map PyV.str)
  | .bytes _ => Except.error PyError.typeError

/-- Whitespace test used by the Python int constructor when stripping
its string argument. -/
def isWS (c : Char) : Bool :=
  c == ' ' || c == '\n' || c == '\r' || c == '\t'

/-- Strip leading and trailing whitespace. -/
def stripWS (s : List Char) : List Char :=
  ((s.dropWhile isWS).reverse.dropWhile isWS).reverse

/-- The Python int constructor on a str or bytes token: strips
surrounding whitespace, then parses an optionally signed ASCII decimal
numeral, raising ValueError on anything else. -/
def pyIntFn : PyV → Except PyError Int
  | .str s =>
    match parseInt? (stripWS s) with
    | some i => Except.ok i
    | none => Except.error PyError.valueError
  | .bytes b =>
    match parseInt? (stripWS (b.map Char.ofNat)) with
    | some i => Except.ok i
    | none => Except.error PyError.valueError

/-- Usc3.get_home_position (lines 135-136): sends the frame of opcode HP
with no parameter, then splits the result of _execute_command on a
single space and applies int to every field.  The response argument is
the byte string the device replied with, as captured by _recv. -/
def get_home_position (response : List Nat) : Except PyError (List Int) :=
  match pySplitSpace (execute_decode response) with
  | .error e => Except.error e
  | .ok parts => parts.mapM pyIntFn

/-- One entry of the enumeration returned by list_ports.comports as
consumed in Usc3._port_seek line 88: the port path, the USB vendor id
and the device serial number, the latter two optional because pyserial
reports None for devices without USB metadata. -/
structure PortInfo where
  device : List Char
  vid : Option Nat
  sn : Option (List Char)
  deriving DecidableEq, Repr

/-- The filter predicate of the two list comprehensions in
Usc3._port_seek (lines 89-92): with no configured serial number a
device matches when its vendor id equals 0x2341, otherwise when its
serial number equals the configured one exactly. -/
def portMatches (serial_number : Option (List Char)) (d : PortInfo) : Bool :=
  match serial_number with
  | none => d.vid == some 0x2341
  | some s => d.sn == some s

/-- The filtered device list built in Usc3._port_seek. -/
def portFilter (serial_number : Option (List Char)) (comports : List PortInfo) : List PortInfo :=
  comports.filter (portMatches serial_number)

/-- Usc3._port_seek (lines 86-93): filter the enumerated devices, then
return port_list[-1].  Indexing [-1] yields the last element and raises
IndexError when the list is empty. -/
def port_seek (serial_number : Option (List Char)) (comports : List PortInfo) :
    Except PyError (List Char) :=
  match ((portFilter serial_number comports).map (fun d => d.device)).getLast? with
  | some p => Except.ok p
  | none => Except.error PyError.indexError

/-- Outcome of Usc3.connect: either the not-found branch (which prints a
message and returns None) or an opened serial connection on the given
port. -/
inductive ConnectResult where
  | notFoundNone
  | opened (port : List Char)
  deriving DecidableEq, Repr

/-- Usc3.connect (lines 113-121): run _port_seek (whose IndexError
propagates), then test the length of the returned port path string; on
length zero print the not-found message and return None, otherwise open
a serial connection on that port. -/
def connect (serial_number : Option (List Char)) (comports : List PortInfo) :
    Except PyError ConnectResult :=
  match port_seek serial_number comports with
  | .error e => Except.error e
  | .ok usc3_port =>
    if usc3_port.length == 0 then Except.ok ConnectResult.notFoundNone
    else Except.ok (ConnectResult.opened usc3_port)

/-- The output-pin mask computed in Usc3.set_pulse line 200: the sum of
2 to the power pin minus 1 over the pin list. -/
def outputMask (output_list : List Nat) : Nat :=
  (output_list.map (fun pin => 2 ^ (pin - 1))).sum

/-- Usc3.set_pulse (lines 156-201): computes the output mask from the
pin list and passes it as the scalar parameter of opcode LPJ.  The
pulse_width argument appears nowhere in the body apart from its
docstring, exactly as in the source. -/
def set_pulse_frame (output_list : List Nat) (pulse_width : Int) : List Char :=
  execFrame "LPJ".toList (some (Param.int (Int.ofNat (outputMask output_list))))

/-- Usc3.run (lines 203-204): opcode M with scalar parameter 1. -/
def run_frame : List Char :=
  execFrame "M".toList (some (Param.int 1))

/-- Usc3.stop (lines 206-207): opcode M with scalar parameter 0. -/
def stop_frame : List Char :=
  execFrame "M".toList (some (Param.int 0))

/-- The disable-flag word computed in Usc3.set_laser_disable_flag line
227 and passed as the scalar parameter of opcode FLAGS: the arithmetic
sum of the input pin number and the trigger-mode constant. -/
def set_laser_disable_flag_word (input_pin : Int) (trigger_mode : Int) : Int :=
  input_pin + trigger_mode

/-! ### Helper lemmas about the model -/

theorem getLast?_map_eq (f : PortInfo → List Char) :
    ∀ l : List PortInfo, (l.map f).getLast? = l.getLast?.map f := by
  intro l
  induction l with
  | nil => rfl
  | cons x xs ih =>
    match xs with
    | [] => rfl
    | y :: ys =>
      simp only [List.map_cons] at ih ⊢
      rw [List.getLast?_cons_cons, List.getLast?_cons_cons, ih]

theorem mem_of_getLast?_eq {l : List PortInfo} {d : PortInfo}
    (h : l.getLast? = some d) : d ∈ l := by
  induction l with
  | nil => simp at h
  | cons x xs ih =>
    match xs with
    | [] =>
      simp only [List.getLast?_singleton, Option.some.injEq] at h
      subst h
      exact List.mem_cons_self _ _
    | y :: ys =>
      rw [List.getLast?_cons_cons] at h
      exact List.mem_cons_of_mem _ (ih h)

theorem execute_decode_eq_bytes (response : List Nat) :
    execute_decode response = PyV.bytes response := by
  unfold execute_decode
  rw [if_neg]
  simp [comm_codes]

/-! ### Claim theorems -/

/-- C9: the byte frame transmitted by the run-marking command (opcode M
with parameter 1) is identical to the byte frame transmitted by the
stop-marking command (opcode M with parameter 0); both operations write
exactly the bytes of the sequence M, space, CR, LF to the transport,
because the slice [1:-1] erases a one-digit scalar entirely. -/
theorem run_and_stop_send_identical_frames :
    run_frame = stop_frame ∧ run_frame = "M \r\n".toList := by
  constructor <;> decide

/-- C10: the frame built by set_pulse depends only on the pin list; the
pulse_width argument is never encoded, so any two widths yield
identical bytes. -/
theorem set_pulse_frame_ignores_pulse_width (output_list : List Nat) (w1 w2 : Int) :
    set_pulse_frame output_list w1 = set_pulse_frame output_list w2 := rfl

/-- C2 (code bug): the claim expects a device reply of the status token
0 followed by LF to decode to the description Success; the code instead
returns every response verbatim as raw bytes, because the membership
probe is a bytes object while every comm_codes key is a str object and
the terminator is never stripped, so the status table is unreachable. -/
theorem decode_never_returns_status :
    (execute_decode (asciiBytes "0\n".toList) = PyV.bytes (asciiBytes "0\n".toList) ∧
      execute_decode (asciiBytes "0\n".toList) ≠ PyV.str "Success".toList) ∧
    ∀ response : List Nat, execute_decode response = PyV.bytes response := by
  refine ⟨⟨execute_decode_eq_bytes _, ?_⟩, execute_decode_eq_bytes⟩
  rw [execute_decode_eq_bytes]
  decide

/-- C4 (code bug): the claim expects the home-position query to turn the
reply 10 20 30 LF into the integer vector [10, 20, 30]; the code
instead raises TypeError on every reply, because _execute_command hands
back raw bytes and the split method is called with a str separator.
The frame sent for the query is HP CR LF as the claim describes. -/
theorem get_home_position_always_type_error :
    execFrame "HP".toList none = "HP\r\n".toList ∧
    get_home_position (asciiBytes "10 20 30\n".toList) = Except.error PyError.typeError ∧
    ∀ response : List Nat, get_home_position response = Except.error PyError.typeError := by
  have huniv : ∀ response : List Nat,
      get_home_position response = Except.error PyError.typeError := by
    intro response
    unfold get_home_position
    rw [execute_decode_eq_bytes]
    rfl
  exact ⟨rfl, huniv _, huniv⟩

/-- C3 (code bug): the claim expects an empty filtered device set to
produce a graceful DeviceNotFound result with no connection attempt;
the code instead raises IndexError at port_list[-1] inside _port_seek,
so connect propagates the exception and its own not-found branch is
unreachable for an empty enumeration. -/
theorem connect_empty_filter_raises_index_error (serial_number : Option (List Char))
    (comports : List PortInfo) (h : portFilter serial_number comports = []) :
    connect serial_number comports = Except.error PyError.indexError := by
  unfold connect port_seek
  rw [h]
  rfl

theorem connect_empty_filter_raises_index_error_witness :
    portFilter none [] = [] ∧ connect none [] = Except.error PyError.indexError :=
  ⟨rfl, connect_empty_filter_raises_index_error none [] rfl⟩

/-- C1 (code bug): the claim expects the scalar frame opcode, space,
decimal rendering of p, CR LF with the token parsing back to p; the
code instead applies the slice [1:-1] to the decimal rendering, which
erases a one-digit scalar entirely, so for every parameter from 0 to 9
the frame degenerates to opcode, space, CR LF and carries no token at
all. -/
theorem scalar_frame_loses_parameter (data : List Char) (p : Int) (h0 : 0 ≤ p) (h9 : p ≤ 9) :
    execFrame data (some (Param.int p)) = data ++ [' ', '\r', '\n'] ∧
    execFrame "AC".toList (some (Param.int 1)) ≠
      "AC".toList ++ [' '] ++ intStr 1 ++ ['\r', '\n'] := by
  constructor
  · have hempty : (slice1m1 (pyReprParam (Param.int p))).filter (fun c => c != ',') = [] := by
      interval_cases p <;> decide
    simp [execFrame, hempty]
  · decide

theorem scalar_frame_loses_parameter_witness :
    (0 ≤ (1 : Int) ∧ (1 : Int) ≤ 9) ∧
      execFrame "AC".toList (some (Param.int 1)) = "AC".toList ++ [' ', '\r', '\n'] :=
  ⟨⟨by decide, by decide⟩,
    (scalar_frame_loses_parameter "AC".toList 1 (by decide) (by decide)).1⟩

/-- C5: whenever discovery succeeds, the returned port path belongs to an
enumerated device that passes the active filter (exact serial-number
equality when a target serial is configured, vendor id 0x2341
otherwise), and that device is the last element of the filtered list in
enumeration order. -/
theorem port_seek_returns_last_matching_device (target : Option (List Char))
    (comports : List PortInfo) (p : List Char)
    (h : port_seek target comports = Except.ok p) :
    ∃ d ∈ comports, d.device = p ∧ portMatches target d = true ∧
      (portFilter target comports).getLast? = some d := by
  unfold port_seek at h
  rw [getLast?_map_eq] at h
  cases hl : (portFilter target comports).getLast? with
  | none =>
    rw [hl] at h
    exact absurd h (by simp)
  | some d =>
    rw [hl] at h
    simp only [Option.map_some'] at h
    have hp : d.device = p := by
      simpa using h
    have hd : d ∈ portFilter target comports := mem_of_getLast?_eq hl
    unfold portFilter at hd
    have hmem := List.mem_filter.mp hd
    exact ⟨d, hmem.1, hp, hmem.2, rfl⟩

theorem execFrame_some (data : List Char) (v : Param) :
    execFrame data (some v) =
      data ++ [' '] ++ (slice1m1 (pyReprParam v)).filter (fun c => c != ',') ++ ['\r', '\n'] :=
  rfl

/-- Sample enumeration used only to instantiate the discovery theorem:
two devices with the supported vendor id. -/
def demoPortA : PortInfo := ⟨"COM3".toList, some 0x2341, none⟩

/-- Second sample device, enumerated after demoPortA. -/
def demoPortB : PortInfo := ⟨"COM7".toList, some 0x2341, some "AB12".toList⟩

theorem port_seek_returns_last_matching_device_witness :
    port_seek none [demoPortA, demoPortB] = Except.ok "COM7".toList ∧
    ∃ d ∈ [demoPortA, demoPortB], d.device = "COM7".toList ∧ portMatches none d = true ∧
      (portFilter none [demoPortA, demoPortB]).getLast? = some d :=
  ⟨rfl,
    port_seek_returns_last_matching_device none [demoPortA, demoPortB] "COM7".toList rfl⟩

/-- C6: for a duplicate-free pin list with every pin between 1 and 22,
the mask computed by set_pulse equals the sum of 2 to the power p minus
1 over the set of pins; in particular the mask of pins 1 and 3 is 5. -/
theorem output_mask_eq_sum_over_pin_set (S : List Nat) (hnd : S.Nodup)
    (hrange : ∀ p ∈ S, 1 ≤ p ∧ p ≤ 22) :
    outputMask S = ∑ p in S.toFinset, 2 ^ (p - 1) ∧ outputMask [1, 3] = 5 := by
  constructor
  · rw [List.sum_toFinset _ hnd]
    rfl
  · decide

theorem output_mask_eq_sum_over_pin_set_witness :
    ([1, 3] : List Nat).Nodup ∧ (∀ p ∈ ([1, 3] : List Nat), 1 ≤ p ∧ p ≤ 22) ∧
      outputMask [1, 3] = ∑ p in ([1, 3] : List Nat).toFinset, 2 ^ (p - 1) ∧
      outputMask [1, 3] = 5 := by
  have h := output_mask_eq_sum_over_pin_set [1, 3] (by decide) (by decide)
  exact ⟨by decide, by decide, h.1, h.2⟩

/-- C7: for every input pin between 2 and 15 and trigger-mode constant
0 or 16, the disable-flag word passed to the FLAGS command is the
arithmetic sum of the pin and the trigger mode; pin 6 with edge trigger
16 gives 22. -/
theorem disable_flag_word_is_pin_plus_trigger (p t : Int) (h2 : 2 ≤ p) (h15 : p ≤ 15)
    (ht : t = 0 ∨ t = 16) :
    set_laser_disable_flag_word p t = p + t ∧ set_laser_disable_flag_word 6 16 = 22 :=
  ⟨rfl, by decide⟩

theorem disable_flag_word_is_pin_plus_trigger_witness :
    (2 ≤ (6 : Int) ∧ (6 : Int) ≤ 15 ∧ ((16 : Int) = 0 ∨ (16 : Int) = 16)) ∧
      set_laser_disable_flag_word 6 16 = 6 + 16 ∧ set_laser_disable_flag_word 6 16 = 22 := by
  have h := disable_flag_word_is_pin_plus_trigger 6 16 (by decide) (by decide) (Or.inr rfl)
  exact ⟨⟨by decide, by decide, Or.inr rfl⟩, h.1, h.2⟩

/-! ### Lemmas supporting the sequence round-trip claim -/

theorem slice_pyRepr_list (v : List Int) :
    slice1m1 (pyReprParam (Param.list v)) = joinSep [',', ' '] (v.map intStr) := by
  unfold pyReprParam slice1m1
  simp only [List.drop_succ_cons, List.drop_zero]
  exact List.dropLast_concat

theorem filter_comma_joinSep (parts : List (List Char))
    (h : ∀ p ∈ parts, ∀ c ∈ p, c ≠ ',') :
    (joinSep [',', ' '] parts).filter (fun c => c != ',') = joinSep [' '] parts := by
  induction parts with
  | nil => rfl
  | cons p ps ih =>
    have hpf : p.filter (fun c => c != ',') = p := by
      rw [List.filter_eq_self]
      intro a ha
      simpa using h p (List.mem_cons_self _ _) a ha
    cases ps with
    | nil =>
      exact hpf
    | cons q ps' =>
      have hrest := ih (fun r hr => h r (List.mem_cons_of_mem _ hr))
      have hsep : ([',', ' '] : List Char).filter (fun c => c != ',') = [' '] := by decide
      simp only [joinSep, List.filter_append, hpf, hrest, hsep]

theorem mem_seq_payload {c : Char} {v : List Int}
    (hc : c ∈ joinSep [' '] (v.map intStr)) : c = ' ' ∨ c = '-' ∨ digit? c = true := by
  rcases mem_joinSep hc with hsep | ⟨p, hp, hcp⟩
  · simp only [List.mem_singleton] at hsep
    exact Or.inl hsep
  · rcases List.mem_map.mp hp with ⟨i, _, rfl⟩
    rcases mem_intStr hcp with rfl | hd
    · exact Or.inr (Or.inl rfl)
    · exact Or.inr (Or.inr hd)

/-- C8: for a nonempty integer sequence parameter, the frame is the
opcode, a space, the decimal renderings of the elements joined by
single spaces, then CR LF; given an opcode free of brackets and commas
the whole frame contains no bracket and no comma; and splitting the
payload on spaces and parsing each field as a decimal integer
reproduces the sequence exactly. -/
theorem seq_frame_round_trip (opcode : List Char) (v : List Int)
    (hv : v ≠ []) (hop : ∀ c ∈ opcode, c ≠ '[' ∧ c ≠ ']' ∧ c ≠ ',') :
    execFrame opcode (some (Param.list v)) =
      opcode ++ [' '] ++ joinSep [' '] (v.map intStr) ++ ['\r', '\n'] ∧
    (∀ c ∈ execFrame opcode (some (Param.list v)), c ≠ '[' ∧ c ≠ ']' ∧ c ≠ ',') ∧
    (splitOnChar ' ' (joinSep [' '] (v.map intStr))).map parseInt? = v.map some := by
  have hnocomma : ∀ p ∈ v.map intStr, ∀ c ∈ p, c ≠ ',' := by
    intro p hp c hcp
    rcases List.mem_map.mp hp with ⟨i, _, rfl⟩
    rcases mem_intStr hcp with rfl | hd
    · decide
    · exact (digit?_ne_special hd).2.2.1
  have hpayload : (slice1m1 (pyReprParam (Param.list v))).filter (fun c => c != ',') =
      joinSep [' '] (v.map intStr) := by
    rw [slice_pyRepr_list]
    exact filter_comma_joinSep _ hnocomma
  have hframe : execFrame opcode (some (Param.list v)) =
      opcode ++ [' '] ++ joinSep [' '] (v.map intStr) ++ ['\r', '\n'] := by
    rw [execFrame_some, hpayload]
  refine ⟨hframe, ?_, ?_⟩
  · intro c hc
    rw [hframe] at hc
    simp only [List.append_assoc, List.mem_append, List.mem_singleton, List.mem_cons,
      List.not_mem_nil, or_false] at hc
    rcases hc with hc | hc | hc | hc | hc
    · exact hop c hc
    · subst hc; exact ⟨by decide, by decide, by decide⟩
    · rcases mem_seq_payload hc with rfl | rfl | hd
      · exact ⟨by decide, by decide, by decide⟩
      · exact ⟨by decide, by decide, by decide⟩
      · have hs := digit?_ne_special hd
        exact ⟨hs.2.2.2.1, hs.2.2.2.2, hs.2.2.1⟩
    · subst hc; exact ⟨by decide, by decide, by decide⟩
    · subst hc; exact ⟨by decide, by decide, by decide⟩
  · have hparts_ne : v.map intStr ≠ [] := by
      simpa using hv
    have hnosp : ∀ p ∈ v.map intStr, ∀ x ∈ p, x ≠ ' ' := by
      intro p hp x hx
      rcases List.mem_map.mp hp with ⟨i, _, rfl⟩
      rcases mem_intStr hx with rfl | hd
      · decide
      · exact (digit?_ne_special hd).2.1
    rw [splitOnChar_joinSep ' ' _ hparts_ne hnosp, List.map_map]
    simp only [Function.comp_def]
    simp [parseInt?_intStr]

theorem seq_frame_round_trip_witness :
    (([10, 20, 30] : List Int) ≠ [] ∧
      execFrame "HP".toList (some (Param.list [10, 20, 30])) = "HP 10 20 30\r\n".toList) ∧
    (splitOnChar ' ' (joinSep [' '] (([10, 20, 30] : List Int).map intStr))).map parseInt? =
      ([10, 20, 30] : List Int).map some := by
  have h := seq_frame_round_trip "HP".toList [10, 20, 30] (by decide) (by decide)
  refine ⟨⟨by decide, ?_⟩, h.2.2⟩
  rw [h.1]
  decide
